import Mathlib

/-!
Verification development for the market-data ingestion core
(`exchange` crate: `depth.rs`, `adapter/forex.rs`).

Modelling conventions:
* Rust `f32` price/quantity values are modelled as exact rationals (`ℚ`).
  None of the properties below depends on binary floating-point rounding:
  they concern map membership, the `qty == 0.0` comparison, sequencing ids,
  and state transitions, all of which copy or compare values exactly.
* Rust `u64` sequence ids are modelled as `ℕ` (the ids in play are far from
  the overflow boundary and no claim depends on wraparound).
* `BTreeMap<Price, f32>` is modelled as an association list with
  insert-replaces semantics (`insertPL`); `first_key_value` /
  `last_key_value` are modelled as the minimum / maximum key.
* `Arc<Depth>` with `Arc::make_mut` (copy-on-write) is modelled as a plain
  `Depth` value: the claims below are about the values stored, not about
  sharing.
-/

/-- Modelled from the spec: the `Price` type lives in `exchange::util`,
which is not under `src/` (only its callers are). The spec describes it as
a fixed-precision price value, totally ordered, with saturating/rounding
arithmetic. We model it as an exact rational. -/
abbrev Price := ℚ

/-- Modelled from the spec: `Price::round_to_min_tick(tick_size)` is not
under `src/`. Spec contract: prices are normalized to the minimum tick size
and rounding is deterministic and idempotent. We model it as rounding to
the nearest integer multiple of the tick. -/
def round_to_min_tick (p tick : ℚ) : ℚ :=
  (round (p / tick) : ℚ) * tick

/-- Modelled from the spec: `Price::from_f32` is not under `src/`; it
injects a raw float value into the price type. With prices modelled as
rationals it is the identity. -/
def Price.from_f32 (p : ℚ) : Price := p

/-- `DeOrder` from `depth.rs`: one (price, qty) wire-level order. -/
structure DeOrder where
  price : ℚ
  qty : ℚ
deriving DecidableEq, Repr

/-- `DepthPayload` from `depth.rs`. -/
structure DepthPayload where
  last_update_id : ℕ
  time : ℕ
  bids : List DeOrder
  asks : List DeOrder
deriving DecidableEq, Repr

/-- `DepthUpdate` from `depth.rs`. -/
inductive DepthUpdate where
  | Snapshot (payload : DepthPayload)
  | Diff (payload : DepthPayload)
deriving DecidableEq, Repr

/-- Model of `BTreeMap<Price, f32>`: an association list from price to
quantity. Insertion replaces any existing binding for the key, so a map
built only through `insertPL` / `removePL` has unique keys. -/
abbrev PriceMap := List (Price × ℚ)

/-- `BTreeMap::remove(&key)`: drop the binding for `p`, if any. -/
def removePL (p : Price) (m : PriceMap) : PriceMap :=
  m.filter (fun e => decide (e.1 ≠ p))

/-- `BTreeMap::insert(key, value)`: bind `p` to `q`, replacing any existing
binding. -/
def insertPL (p : Price) (q : ℚ) (m : PriceMap) : PriceMap :=
  (p, q) :: removePL p m

/-- `BTreeMap::get(&key)` (lookup). -/
def lookupPL (p : Price) (m : PriceMap) : Option ℚ :=
  (m.find? (fun e => decide (e.1 = p))).map (·.2)

/-- Minimum key of the map (`BTreeMap::first_key_value`, key part). -/
def minKey? : PriceMap → Option Price
  | [] => none
  | e :: es =>
    some (match minKey? es with
          | none => e.1
          | some m => min e.1 m)

/-- Maximum key of the map (`BTreeMap::last_key_value`, key part). -/
def maxKey? : PriceMap → Option Price
  | [] => none
  | e :: es =>
    some (match maxKey? es with
          | none => e.1
          | some m => max e.1 m)

/-- `Depth` from `depth.rs`: bid and ask maps. -/
structure Depth where
  bids : PriceMap
  asks : PriceMap
deriving DecidableEq, Repr

namespace Depth

/-- `Depth::diff_price_levels` (depth.rs lines 87-104): for each order, round
its price to the minimum tick; if `qty == 0.0` remove that level, else
insert/update it. -/
def diff_price_levels (price_map : PriceMap) (orders : List DeOrder)
    (min_ticksize : ℚ) : PriceMap :=
  orders.foldl
    (fun pm order =>
      let p := round_to_min_tick (Price.from_f32 order.price) min_ticksize
      if order.qty = 0 then removePL p pm else insertPL p order.qty pm)
    price_map

/-- `Depth::update` (depth.rs lines 82-85). -/
def update (d : Depth) (diff : DepthPayload) (min_ticksize : ℚ) : Depth :=
  { bids := diff_price_levels d.bids diff.bids min_ticksize
    asks := diff_price_levels d.asks diff.asks min_ticksize }

/-- `iter().map(pair).collect::<BTreeMap<_,_>>()`: build a fresh map by
inserting each (rounded price, qty) pair in order. -/
def collectLevels (orders : List DeOrder) (min_ticksize : ℚ) : PriceMap :=
  orders.foldl
    (fun pm order =>
      insertPL (round_to_min_tick (Price.from_f32 order.price) min_ticksize)
        order.qty pm)
    []

/-- `Depth::replace_all` (depth.rs lines 106-127): both maps are rebuilt from
scratch out of the snapshot payload; the previous contents are discarded.
Note that, unlike `diff_price_levels`, no `qty == 0` filtering happens here:
every snapshot entry is collected verbatim. -/
def replace_all (_d : Depth) (snapshot : DepthPayload) (min_ticksize : ℚ) :
    Depth :=
  { bids := collectLevels snapshot.bids min_ticksize
    asks := collectLevels snapshot.asks min_ticksize }

/-- `Depth::mid_price` (depth.rs lines 129-134): average of the lowest ask
and the highest bid, `None` if either side is empty. -/
def mid_price (d : Depth) : Option Price :=
  match minKey? d.asks, maxKey? d.bids with
  | some ask_price, some bid_price => some ((ask_price + bid_price) / 2)
  | _, _ => none

end Depth

/-- `LocalDepthCache` from `depth.rs` (the `Arc<Depth>` is modelled as a
plain value, see the header note). -/
structure LocalDepthCache where
  last_update_id : ℕ
  time : ℕ
  depth : Depth
deriving DecidableEq, Repr

namespace LocalDepthCache

/-- `LocalDepthCache::default()`: zero ids, empty maps. -/
def init : LocalDepthCache := ⟨0, 0, ⟨[], []⟩⟩

/-- `LocalDepthCache::update` (depth.rs lines 145-162): unconditionally
overwrite `last_update_id` and `time` with the payload values, then either
replace the whole book (snapshot) or patch it (diff). -/
def update (c : LocalDepthCache) (new_depth : DepthUpdate)
    (min_ticksize : ℚ) : LocalDepthCache :=
  match new_depth with
  | .Snapshot snapshot =>
    { last_update_id := snapshot.last_update_id
      time := snapshot.time
      depth := c.depth.replace_all snapshot min_ticksize }
  | .Diff diff =>
    { last_update_id := diff.last_update_id
      time := diff.time
      depth := c.depth.update diff min_ticksize }

end LocalDepthCache

/-- `Trade` (one print, buffered per update cycle). -/
structure Trade where
  time : ℕ
  is_sell : Bool
  price : Price
  qty : ℚ
deriving DecidableEq, Repr

/-- `PerpDepth` from `adapter/forex.rs`: the wire shape of one depth diff. -/
structure PerpDepth where
  time : ℕ
  first_id : ℕ
  final_id : ℕ
  prev_final_id : ℕ
  bids : List DeOrder
  asks : List DeOrder
deriving DecidableEq, Repr

/-- `connect::State`: the per-connection state machine. The websocket handle
carried by `Connected` is irrelevant to the claims and dropped. -/
inductive ConnState where
  | Disconnected
  | Connected
deriving DecidableEq, Repr

/-- The `Event` enum surfaced to consumers. The only exchange in the adapter
under study is `Exchange::Forex`, so the exchange tag is dropped; the
`StreamKind` tag of `DepthReceived` is constant per stream and dropped. -/
inductive Event where
  | Connected
  | Disconnected (reason : String)
  | DepthReceived (time : ℕ) (depth : Depth) (trades : List Trade)
  | KlineReceived (time : ℕ)
deriving DecidableEq, Repr

/-- `calc_qty` from `adapter/forex.rs` (lines 566-577). The `f32::round` of
the quote-currency branch is modelled as rounding to the nearest integer. -/
def calc_qty (qty price : ℚ) (contract_size : Option ℚ)
    (size_in_quote_ccy : Bool) : ℚ :=
  match contract_size with
  | some size => qty * size
  | none => if size_in_quote_ccy then (round (qty * price) : ℚ) else qty

/-- `new_depth_cache` from `adapter/forex.rs` (lines 488-513): convert a wire
diff into a `DepthPayload`, taking `final_id` as the payload id and running
each quantity through `calc_qty`. -/
def new_depth_cache (depth : PerpDepth) (contract_size : Option ℚ)
    (size_in_quote_ccy : Bool) : DepthPayload :=
  { last_update_id := depth.final_id
    time := depth.time
    bids := depth.bids.map (fun x =>
      { price := x.price
        qty := calc_qty x.qty x.price contract_size size_in_quote_ccy })
    asks := depth.asks.map (fun x =>
      { price := x.price
        qty := calc_qty x.qty x.price contract_size size_in_quote_ccy }) }

/-- The mutable locals of one `connect_market_stream` task (forex.rs lines
285-296): connection state, order book, trade buffer, resync guard and the
`prev_id` continuity cursor. -/
structure StreamState where
  state : ConnState
  orderbook : LocalDepthCache
  trades_buffer : List Trade
  already_fetching : Bool
  prev_id : ℕ
deriving DecidableEq, Repr

/-- The possible outcomes of the awaited resync fetch inside `try_resync`
(forex.rs lines 253-276): the oneshot delivers `Ok(Ok(depth))`,
`Ok(Err(e))`, or the channel itself fails (`Err(e)`). The network fetch is
external input, so the outcome is a parameter of the model. -/
inductive ResyncOutcome where
  | fetched (depth : DepthPayload)
  | fetchFailed (msg : String)
  | channelError (msg : String)
deriving DecidableEq, Repr

/-- `try_resync` from `adapter/forex.rs` (lines 234-278): set the
re-entrancy guard, run the fetch, then on success reseed the order book
from the snapshot, on fetch failure emit `Disconnected`, and on channel
failure force the state machine to `Disconnected` and emit the event;
finally clear the guard. Returns the new state and the events sent. -/
def try_resync (s : StreamState) (min_ticksize : ℚ) (r : ResyncOutcome) :
    StreamState × List Event :=
  let s1 := { s with already_fetching := true }
  let (s2, evs) :=
    match r with
    | .fetched depth =>
      ({ s1 with orderbook :=
           s1.orderbook.update (.Snapshot depth) min_ticksize }, [])
    | .fetchFailed msg =>
      (s1, [Event.Disconnected ("Depth fetch failed: " ++ msg)])
    | .channelError msg =>
      ({ s1 with state := .Disconnected },
       [Event.Disconnected ("Failed to send fetched depth, error: " ++ msg)])
  ({ s2 with already_fetching := false }, evs)

/-- The `StreamData::Depth` arm of the `Connected` branch of
`connect_market_stream` (forex.rs lines 383-456), transcribed condition by
condition. The returned `Bool` records whether `try_resync` was invoked.

Source structure: skip while `already_fetching`; skip stale diffs
(`final_id <= last_update_id || last_update_id == 0`); then (Rust `&&`
binds tighter than `||`) resync when
`prev_id == 0 && first_id > last_update_id + 1 || last_update_id + 1 >
final_id`; then, with no early exit after the resync, apply the diff when
`prev_id == 0 || prev_id == prev_final_id`, flushing the trade buffer
together with the depth event, else transition to `Disconnected` with one
event. -/
def handle_depth (s : StreamState) (d : PerpDepth) (min_ticksize : ℚ)
    (size_in_quote_ccy : Bool) (contract_size : Option ℚ)
    (r : ResyncOutcome) : StreamState × List Event × Bool :=
  if s.already_fetching then (s, [], false)
  else
    let last_update_id := s.orderbook.last_update_id
    if d.final_id ≤ last_update_id ∨ last_update_id = 0 then (s, [], false)
    else
      let resync_cond : Bool :=
        (decide (s.prev_id = 0) && decide (d.first_id > last_update_id + 1))
          || decide (last_update_id + 1 > d.final_id)
      let (s1, evs1) :=
        if resync_cond then try_resync s min_ticksize r else (s, [])
      if s1.prev_id = 0 ∨ s1.prev_id = d.prev_final_id then
        let ob := s1.orderbook.update
          (.Diff (new_depth_cache d contract_size size_in_quote_ccy))
          min_ticksize
        ({ s1 with orderbook := ob, trades_buffer := [],
                   prev_id := d.final_id },
         evs1 ++ [Event.DepthReceived d.time ob.depth s1.trades_buffer],
         resync_cond)
      else
        ({ s1 with state := .Disconnected },
         evs1 ++ [Event.Disconnected
           ("Out of sync. Expected update_id: " ++ toString d.prev_final_id
             ++ ", got: " ++ toString s.prev_id)],
         resync_cond)

/-- A depth message as seen by the stream task: while `Disconnected` the
loop is in its reconnect branch and reads no frames, so an incoming diff
has no effect; while `Connected` it is handled by the depth arm. -/
def on_depth (s : StreamState) (d : PerpDepth) (min_ticksize : ℚ)
    (size_in_quote_ccy : Bool) (contract_size : Option ℚ)
    (r : ResyncOutcome) : StreamState × List Event × Bool :=
  match s.state with
  | .Disconnected => (s, [], false)
  | .Connected =>
    handle_depth s d min_ticksize size_in_quote_ccy contract_size r

/-- Model of `serde_json::Value` for `DeOrder::deserialize` (depth.rs lines
15-47). A JSON number is carried as its exact rational value (the claims do
not depend on binary float precision). A JSON string is abstracted to the
result of `s.parse::<f32>().ok()`: `str (some q)` is a string that parses
to the numeral `q`, `str none` is a non-numeric string. -/
inductive JVal where
  | null
  | bool (b : Bool)
  | num (q : ℚ)
  | str (parsed : Option ℚ)
  | arr (elems : List JVal)
  | obj (entries : List (String × JVal))

/-- `serde_json::Map::get`: look up a key in the object. -/
def objGet (entries : List (String × JVal)) (k : String) : Option JVal :=
  (entries.find? (fun e => decide (e.1 = k))).map (·.2)

/-- The `parse_f` closure of `DeOrder::deserialize` (depth.rs lines 23-29):
a string yields its parse result, a number its value, anything else `None`. -/
def parse_f : JVal → Option ℚ
  | .str parsed => parsed
  | .num n => some n
  | _ => none

/-- `DeOrder::deserialize` (depth.rs lines 15-47): the price comes from the
first array element or the object key "0", the qty from the second array
element or the object key "1"; any shape where either is missing or fails
`parse_f` is a deserialization error. -/
def DeOrder.deserialize (value : JVal) : Except String DeOrder :=
  let price? : Option ℚ :=
    match value with
    | .arr elems => elems.head?.bind parse_f
    | .obj entries => (objGet entries "0").bind parse_f
    | _ => none
  match price? with
  | none => .error "Order price not found or invalid"
  | some price =>
    let qty? : Option ℚ :=
      match value with
      | .arr elems => (elems.get? 1).bind parse_f
      | .obj entries => (objGet entries "1").bind parse_f
      | _ => none
    match qty? with
    | none => .error "Order qty not found or invalid"
    | some qty => .ok ⟨price, qty⟩

/-- A JSON value encoding the numeral `q` either as a number or as a
string-encoded numeral (spec: price/qty fields may arrive either way). -/
def numLike (v : JVal) (q : ℚ) : Prop :=
  v = .num q ∨ v = .str (some q)

/-- Follows the words of the spec for the refinement claim C7: starting
from an empty map, insert each snapshot level once, in order, with
tick-size rounding. To be compared with the map produced by
`Depth.replace_all`. -/
def snapshotLevelsSpec (orders : List DeOrder) (min_ticksize : ℚ) :
    PriceMap :=
  orders.foldl
    (fun m o =>
      insertPL (round_to_min_tick (Price.from_f32 o.price) min_ticksize)
        o.qty m)
    []

/-- The quantity attached to the last order of the list whose tick-rounded
price equals `p`, if any: the net effect of a diff on the level `p` is
decided by this last touch. -/
def lastQty (p tick : ℚ) : List DeOrder → Option ℚ
  | [] => none
  | o :: os =>
    match lastQty p tick os with
    | some q => some q
    | none =>
      if round_to_min_tick (Price.from_f32 o.price) tick = p then some o.qty
      else none

/-- Every entry of the map carries a strictly positive quantity. -/
def allPos (m : PriceMap) : Prop := ∀ e ∈ m, 0 < e.2

/-- Apply a sequence of snapshot/diff updates to a cache, in order. -/
def applyUpdates (c : LocalDepthCache) (us : List DepthUpdate) (tick : ℚ) :
    LocalDepthCache :=
  us.foldl (fun c u => c.update u tick) c

/-- A well-formed payload in the sense of the amended C1: snapshot entries
carry strictly positive quantities (the snapshot path stores entries
verbatim, with no zero filter), diff entries carry nonnegative quantities
(zero meaning deletion). -/
def goodUpdate : DepthUpdate → Prop
  | .Snapshot s => ∀ o ∈ s.bids ++ s.asks, 0 < o.qty
  | .Diff d => ∀ o ∈ d.bids ++ d.asks, 0 ≤ o.qty

instance (u : DepthUpdate) : Decidable (goodUpdate u) :=
  match u with
  | .Snapshot s =>
    inferInstanceAs (Decidable (∀ o ∈ s.bids ++ s.asks, 0 < o.qty))
  | .Diff d =>
    inferInstanceAs (Decidable (∀ o ∈ d.bids ++ d.asks, 0 ≤ o.qty))

theorem removePL_cons (p : Price) (e : Price × ℚ) (es : PriceMap) :
    removePL p (e :: es) =
      if e.1 = p then removePL p es else e :: removePL p es := by
  by_cases h : e.1 = p <;> simp [removePL, List.filter_cons, h]

theorem lookupPL_cons (p : Price) (e : Price × ℚ) (es : PriceMap) :
    lookupPL p (e :: es) =
      if e.1 = p then some e.2 else lookupPL p es := by
  by_cases h : e.1 = p <;> simp [lookupPL, List.find?_cons, h]

theorem lookupPL_removePL_self (p : Price) (m : PriceMap) :
    lookupPL p (removePL p m) = none := by
  induction m with
  | nil => rfl
  | cons e es ih =>
    rw [removePL_cons]
    by_cases h : e.1 = p
    · simpa [h] using ih
    · rw [if_neg h, lookupPL_cons, if_neg h]; exact ih

theorem lookupPL_removePL_ne (p p' : Price) (m : PriceMap) (h : p' ≠ p) :
    lookupPL p (removePL p' m) = lookupPL p m := by
  induction m with
  | nil => rfl
  | cons e es ih =>
    rw [removePL_cons, lookupPL_cons]
    by_cases he : e.1 = p'
    · have hep : ¬ e.1 = p := by rw [he]; exact h
      rw [if_pos he, if_neg hep]; exact ih
    · rw [if_neg he, lookupPL_cons]
      by_cases hp : e.1 = p
      · rw [if_pos hp, if_pos hp]
      · rw [if_neg hp, if_neg hp]; exact ih

theorem lookupPL_insertPL_self (p : Price) (q : ℚ) (m : PriceMap) :
    lookupPL p (insertPL p q m) = some q := by
  rw [insertPL, lookupPL_cons, if_pos rfl]

theorem lookupPL_insertPL_ne (p p' : Price) (q : ℚ) (m : PriceMap)
    (h : p' ≠ p) : lookupPL p (insertPL p' q m) = lookupPL p m := by
  rw [insertPL, lookupPL_cons, if_neg h]
  exact lookupPL_removePL_ne p p' m h

/-- Net effect of `diff_price_levels` on one level: the level `p` ends up
with the qty of the last order touching it (absent when that qty is 0), and
is untouched when no order addresses it. -/
theorem lookupPL_diff_price_levels (p tick : ℚ) (orders : List DeOrder) :
    ∀ m : PriceMap,
      lookupPL p (Depth.diff_price_levels m orders tick) =
        match lastQty p tick orders with
        | none => lookupPL p m
        | some q => if q = 0 then none else some q := by
  induction orders with
  | nil => intro m; rfl
  | cons o os ih =>
    intro m
    have step : Depth.diff_price_levels m (o :: os) tick =
        Depth.diff_price_levels
          (if o.qty = 0 then
            removePL (round_to_min_tick (Price.from_f32 o.price) tick) m
          else
            insertPL (round_to_min_tick (Price.from_f32 o.price) tick)
              o.qty m) os tick := rfl
    rw [step, ih]
    cases hlast : lastQty p tick os with
    | some q => simp [lastQty, hlast]
    | none =>
      by_cases hp : round_to_min_tick (Price.from_f32 o.price) tick = p
      · rw [hp]
        by_cases hq : o.qty = 0
        · simp only [lastQty, hlast, hp, hq, if_pos]
          exact lookupPL_removePL_self p m
        · simp only [lastQty, hlast, hp, hq, if_pos, if_neg hq, ite_true]
          exact lookupPL_insertPL_self p o.qty m
      · by_cases hq : o.qty = 0
        · simp only [lastQty, hlast, hp, hq, if_neg, ite_true, ite_false]
          exact lookupPL_removePL_ne p _ m hp
        · simp only [lastQty, hlast, hp, hq, ite_false]
          exact lookupPL_insertPL_ne p _ o.qty m hp

theorem allPos_removePL (p : Price) (m : PriceMap) (h : allPos m) :
    allPos (removePL p m) := fun e he => h e (List.mem_of_mem_filter he)

theorem allPos_insertPL (p : Price) (q : ℚ) (m : PriceMap) (hq : 0 < q)
    (h : allPos m) : allPos (insertPL p q m) := by
  intro e he
  rcases List.mem_cons.1 he with h1 | h2
  · rw [h1]; exact hq
  · exact allPos_removePL p m h e h2

theorem allPos_diff_price_levels (tick : ℚ) (orders : List DeOrder) :
    ∀ m : PriceMap, allPos m → (∀ o ∈ orders, 0 ≤ o.qty) →
      allPos (Depth.diff_price_levels m orders tick) := by
  induction orders with
  | nil => intro m hm _; exact hm
  | cons o os ih =>
    intro m hm hq
    have step : Depth.diff_price_levels m (o :: os) tick =
        Depth.diff_price_levels
          (if o.qty = 0 then
            removePL (round_to_min_tick (Price.from_f32 o.price) tick) m
          else
            insertPL (round_to_min_tick (Price.from_f32 o.price) tick)
              o.qty m) os tick := rfl
    rw [step]
    refine ih _ ?_ (fun x hx => hq x (List.mem_cons_of_mem o hx))
    by_cases hz : o.qty = 0
    · simpa [hz] using allPos_removePL _ m hm
    · have hpos : 0 < o.qty :=
        lt_of_le_of_ne (hq o (List.mem_cons_self o os)) (Ne.symm hz)
      simpa [hz] using allPos_insertPL _ o.qty m hpos hm

theorem allPos_collectLevels (tick : ℚ) (orders : List DeOrder)
    (hq : ∀ o ∈ orders, 0 < o.qty) :
    allPos (Depth.collectLevels orders tick) := by
  suffices h : ∀ m : PriceMap, allPos m → (∀ o ∈ orders, 0 < o.qty) →
      allPos (orders.foldl
        (fun pm order =>
          insertPL (round_to_min_tick (Price.from_f32 order.price) tick)
            order.qty pm) m) by
    exact h [] (fun e he => absurd he (List.not_mem_nil e)) hq
  clear hq
  induction orders with
  | nil => intro m hm _; exact hm
  | cons o os ih =>
    intro m hm hq
    refine ih _ ?_ (fun x hx => hq x (List.mem_cons_of_mem o hx))
    exact allPos_insertPL _ o.qty m (hq o (List.mem_cons_self o os)) hm

theorem allPos_update (c : LocalDepthCache) (u : DepthUpdate) (tick : ℚ)
    (hb : allPos c.depth.bids) (ha : allPos c.depth.asks)
    (hu : goodUpdate u) :
    allPos (c.update u tick).depth.bids ∧
      allPos (c.update u tick).depth.asks := by
  cases u with
  | Snapshot s =>
    have hb' : ∀ o ∈ s.bids, 0 < o.qty :=
      fun o ho => hu o (List.mem_append_left _ ho)
    have ha' : ∀ o ∈ s.asks, 0 < o.qty :=
      fun o ho => hu o (List.mem_append_right _ ho)
    exact ⟨allPos_collectLevels tick s.bids hb',
           allPos_collectLevels tick s.asks ha'⟩
  | Diff d =>
    have hb' : ∀ o ∈ d.bids, 0 ≤ o.qty :=
      fun o ho => hu o (List.mem_append_left _ ho)
    have ha' : ∀ o ∈ d.asks, 0 ≤ o.qty :=
      fun o ho => hu o (List.mem_append_right _ ho)
    exact ⟨allPos_diff_price_levels tick d.bids c.depth.bids hb hb',
           allPos_diff_price_levels tick d.asks c.depth.asks ha ha'⟩

theorem allPos_applyUpdates (tick : ℚ) (us : List DepthUpdate) :
    ∀ c : LocalDepthCache, allPos c.depth.bids → allPos c.depth.asks →
      (∀ u ∈ us, goodUpdate u) →
      allPos (applyUpdates c us tick).depth.bids ∧
        allPos (applyUpdates c us tick).depth.asks := by
  induction us with
  | nil => intro c hb ha _; exact ⟨hb, ha⟩
  | cons u us ih =>
    intro c hb ha hg
    have step : applyUpdates c (u :: us) tick =
        applyUpdates (c.update u tick) us tick := rfl
    rw [step]
    obtain ⟨hb', ha'⟩ :=
      allPos_update c u tick hb ha (hg u (List.mem_cons_self u us))
    exact ih _ hb' ha' (fun x hx => hg x (List.mem_cons_of_mem u hx))

/-- Claim C1, counterexample. The claim says that for every sequence of
`LocalDepthCache::update` operations, snapshots included, a payload entry
with `qty == 0` leaves the level absent and every stored entry has
`qty > 0`. The snapshot path (`replace_all`) collects entries verbatim with
no zero filter: applying to the default cache a snapshot whose only bid is
`(price 1, qty 0)` (tick size 1) leaves the level 1 present with value 0. -/
theorem c1_counterexample :
    lookupPL 1 ((LocalDepthCache.init.update
        (.Snapshot ⟨5, 0, [⟨1, 0⟩], []⟩) 1).depth.bids) = some 0 ∧
      ¬ lookupPL 1 ((LocalDepthCache.init.update
        (.Snapshot ⟨5, 0, [⟨1, 0⟩], []⟩) 1).depth.bids) = none := by
  have hkey : round_to_min_tick (Price.from_f32 1) 1 = 1 := by
    norm_num [round_to_min_tick, Price.from_f32, round_eq]
  have hmap : (LocalDepthCache.init.update
      (.Snapshot ⟨5, 0, [⟨1, 0⟩], []⟩) 1).depth.bids = [(1, 0)] := by
    show Depth.collectLevels [⟨1, 0⟩] 1 = [(1, 0)]
    simp [Depth.collectLevels, insertPL, removePL, hkey]
  rw [hmap]
  refine ⟨?_, ?_⟩ <;> simp [lookupPL_cons]

/-- Claim C1, amended: (a) in a **diff**, the level whose last touching
entry has `qty == 0` ends up absent from the map, never present with value
0; (b) for every sequence of updates from the empty cache in which
snapshot entries have `qty > 0` and diff entries have `qty ≥ 0`, every
entry present in either map has `qty > 0`. (The unamended claim fails on
the snapshot path, which stores `qty == 0` entries verbatim; see the
counterexample.) -/
theorem c1_zero_qty_deletes_and_positive_invariant :
    (∀ (m : PriceMap) (orders : List DeOrder) (tick p : ℚ),
        lastQty p tick orders = some 0 →
        lookupPL p (Depth.diff_price_levels m orders tick) = none) ∧
    (∀ (us : List DepthUpdate) (tick : ℚ),
        (∀ u ∈ us, goodUpdate u) →
        allPos (applyUpdates LocalDepthCache.init us tick).depth.bids ∧
          allPos (applyUpdates LocalDepthCache.init us tick).depth.asks) := by
  constructor
  · intro m orders tick p hlast
    rw [lookupPL_diff_price_levels p tick orders m, hlast]
    simp
  · intro us tick hg
    refine allPos_applyUpdates tick us LocalDepthCache.init ?_ ?_ hg
    · intro e he; exact absurd he (List.not_mem_nil e)
    · intro e he; exact absurd he (List.not_mem_nil e)

/-- Witness for the amended C1: a diff deleting level 1 leaves it absent,
and a snapshot with positive quantities followed by that diff keeps all
entries positive. -/
theorem c1_zero_qty_deletes_and_positive_invariant_witness :
    lookupPL 1 (Depth.diff_price_levels [(1, 2)] [⟨1, 0⟩] 1) = none ∧
      (allPos (applyUpdates LocalDepthCache.init
          [.Snapshot ⟨1, 0, [⟨1, 2⟩], [⟨3, 4⟩]⟩, .Diff ⟨2, 1, [⟨1, 0⟩], []⟩]
          1).depth.bids ∧
        allPos (applyUpdates LocalDepthCache.init
          [.Snapshot ⟨1, 0, [⟨1, 2⟩], [⟨3, 4⟩]⟩, .Diff ⟨2, 1, [⟨1, 0⟩], []⟩]
          1).depth.asks) :=
  ⟨c1_zero_qty_deletes_and_positive_invariant.1 [(1, 2)] [⟨1, 0⟩] 1 1
      (by norm_num [lastQty, round_to_min_tick, Price.from_f32, round_eq]),
   c1_zero_qty_deletes_and_positive_invariant.2
      [.Snapshot ⟨1, 0, [⟨1, 2⟩], [⟨3, 4⟩]⟩, .Diff ⟨2, 1, [⟨1, 0⟩], []⟩] 1
      (by intro u hu
          rcases List.mem_cons.1 hu with h | h
          · rw [h]; intro o ho; fin_cases ho <;> norm_num
          · rcases List.mem_cons.1 h with h2 | h2
            · rw [h2]; intro o ho; fin_cases ho; norm_num
            · exact absurd h2 (List.not_mem_nil u))⟩

theorem minKey?_eq_none (m : PriceMap) (h : minKey? m = none) : m = [] := by
  cases m with
  | nil => rfl
  | cons e es => simp [minKey?] at h

theorem minKey?_isLeast (m : PriceMap) (a : Price) (h : minKey? m = some a) :
    a ∈ m.map Prod.fst ∧ ∀ e ∈ m, a ≤ e.1 := by
  induction m generalizing a with
  | nil => simp [minKey?] at h
  | cons e es ih =>
    cases hes : minKey? es with
    | none =>
      have hnil := minKey?_eq_none es hes
      subst hnil
      simp [minKey?, hes] at h
      subst h
      simp
    | some b =>
      obtain ⟨hmem, hle⟩ := ih b hes
      simp only [minKey?, hes] at h
      obtain rfl : min e.1 b = a := by simpa using h
      rcases min_cases e.1 b with ⟨hmin, heb⟩ | ⟨hmin, hba⟩
      · refine ⟨?_, ?_⟩
        · rw [hmin, List.map_cons]
          exact List.mem_cons_self _ _
        · intro x hx
          rcases List.mem_cons.1 hx with h1 | h1
          · rw [h1, hmin]
          · rw [hmin]
            exact le_trans heb (hle x h1)
      · refine ⟨?_, ?_⟩
        · rw [hmin, List.map_cons]
          exact List.mem_cons_of_mem _ hmem
        · intro x hx
          rcases List.mem_cons.1 hx with h1 | h1
          · rw [h1, hmin]; exact le_of_lt hba
          · rw [hmin]; exact hle x h1

theorem maxKey?_eq_none (m : PriceMap) (h : maxKey? m = none) : m = [] := by
  cases m with
  | nil => rfl
  | cons e es => simp [maxKey?] at h

theorem maxKey?_isGreatest (m : PriceMap) (a : Price)
    (h : maxKey? m = some a) :
    a ∈ m.map Prod.fst ∧ ∀ e ∈ m, e.1 ≤ a := by
  induction m generalizing a with
  | nil => simp [maxKey?] at h
  | cons e es ih =>
    cases hes : maxKey? es with
    | none =>
      have hnil := maxKey?_eq_none es hes
      subst hnil
      simp [maxKey?, hes] at h
      subst h
      simp
    | some b =>
      obtain ⟨hmem, hle⟩ := ih b hes
      simp only [maxKey?, hes] at h
      obtain rfl : max e.1 b = a := by simpa using h
      rcases max_cases e.1 b with ⟨hmax, hbe⟩ | ⟨hmax, hba⟩
      · refine ⟨?_, ?_⟩
        · rw [hmax, List.map_cons]
          exact List.mem_cons_self _ _
        · intro x hx
          rcases List.mem_cons.1 hx with h1 | h1
          · rw [h1, hmax]
          · rw [hmax]
            exact le_trans (hle x h1) hbe
      · refine ⟨?_, ?_⟩
        · rw [hmax, List.map_cons]
          exact List.mem_cons_of_mem _ hmem
        · intro x hx
          rcases List.mem_cons.1 hx with h1 | h1
          · rw [h1, hmax]; exact le_of_lt hba
          · rw [hmax]; exact hle x h1

/-- Claim C6: `mid_price` returns the average of the best (highest) bid and
the best (lowest) ask when both maps are non-empty, `none` when either map
is empty; on the spec example (bids 100 and 99, ask 101) the result is
100.5 = 201/2. -/
theorem c6_mid_price_avg_of_best :
    (∀ d : Depth, d.bids ≠ [] → d.asks ≠ [] →
      ∃ bid ask : Price,
        bid ∈ d.bids.map Prod.fst ∧ (∀ e ∈ d.bids, e.1 ≤ bid) ∧
        ask ∈ d.asks.map Prod.fst ∧ (∀ e ∈ d.asks, ask ≤ e.1) ∧
        d.mid_price = some ((ask + bid) / 2)) ∧
    (∀ d : Depth, d.bids = [] ∨ d.asks = [] → d.mid_price = none) ∧
    Depth.mid_price ⟨[(100, 2), (99, 1)], [(101, 3)]⟩ = some (201 / 2) := by
  refine ⟨?_, ?_, ?_⟩
  · intro d hb ha
    cases hask : minKey? d.asks with
    | none => exact absurd (minKey?_eq_none _ hask) ha
    | some a =>
      cases hbid : maxKey? d.bids with
      | none => exact absurd (maxKey?_eq_none _ hbid) hb
      | some b =>
        obtain ⟨hma, hla⟩ := minKey?_isLeast _ a hask
        obtain ⟨hmb, hlb⟩ := maxKey?_isGreatest _ b hbid
        exact ⟨b, a, hmb, hlb, hma, hla,
          by simp [Depth.mid_price, hask, hbid]⟩
  · intro d h
    rcases h with h | h
    · have : maxKey? d.bids = none := by rw [h]; rfl
      cases hask : minKey? d.asks <;> simp [Depth.mid_price, hask, this]
    · have : minKey? d.asks = none := by rw [h]; rfl
      simp [Depth.mid_price, this]
  · have h1 : minKey? [((101 : ℚ), (3 : ℚ))] = some 101 := rfl
    have h2 : maxKey? [((100 : ℚ), (2 : ℚ)), (99, 1)] = some 100 := by
      show some (max 100 99) = some 100
      norm_num
    simp only [Depth.mid_price, h1, h2]
    norm_num

/-- Witness for C6: the best-bid/best-ask characterization at the spec
example depth, and `none` on a depth with an empty bid side. -/
theorem c6_mid_price_avg_of_best_witness :
    (∃ bid ask : Price,
      bid ∈ ([((100 : ℚ), (2 : ℚ)), (99, 1)] : PriceMap).map Prod.fst ∧
      (∀ e ∈ ([((100 : ℚ), (2 : ℚ)), (99, 1)] : PriceMap), e.1 ≤ bid) ∧
      ask ∈ ([((101 : ℚ), (3 : ℚ))] : PriceMap).map Prod.fst ∧
      (∀ e ∈ ([((101 : ℚ), (3 : ℚ))] : PriceMap), ask ≤ e.1) ∧
      (Depth.mk [(100, 2), (99, 1)] [(101, 3)]).mid_price =
        some ((ask + bid) / 2)) ∧
    Depth.mid_price ⟨[], [(101, 3)]⟩ = none :=
  ⟨c6_mid_price_avg_of_best.1 ⟨[(100, 2), (99, 1)], [(101, 3)]⟩
      (by simp) (by simp),
   c6_mid_price_avg_of_best.2.1 ⟨[], [(101, 3)]⟩ (Or.inl rfl)⟩

/-- Claim C8: for every price `p` and tick size `t > 0`, rounding to the
minimum tick is idempotent: applying `round_to_min_tick` twice yields the
same value as once. (Determinism holds by construction: the rounding is a
pure function of `p` and `t`.) -/
theorem c8_round_to_min_tick_idempotent :
    ∀ (p t : ℚ), 0 < t →
      round_to_min_tick (round_to_min_tick p t) t = round_to_min_tick p t := by
  intro p t ht
  unfold round_to_min_tick
  rw [mul_div_cancel_right₀ _ (ne_of_gt ht), round_intCast]

/-- Witness for C8 at `p = 7/3`, `t = 1/2`. -/
theorem c8_round_to_min_tick_idempotent_witness :
    (0 : ℚ) < 1/2 ∧
      round_to_min_tick (round_to_min_tick (7/3) (1/2)) (1/2) =
        round_to_min_tick (7/3) (1/2) :=
  ⟨by norm_num, c8_round_to_min_tick_idempotent (7/3) (1/2) (by norm_num)⟩

/-- Claim C10: `LocalDepthCache::update` performs no sequence-id validation.
For every starting cache and every payload — snapshot or diff, and in
particular even when the incoming `last_update_id` is smaller than the
current one — it unconditionally overwrites `last_update_id` and `time`
with the payload values and applies the payload levels
(`replace_all` for snapshots, `Depth::update` for diffs). -/
theorem c10_update_unconditional :
    ∀ (c : LocalDepthCache) (p : DepthPayload) (tick : ℚ),
      ((c.update (.Snapshot p) tick).last_update_id = p.last_update_id ∧
       (c.update (.Snapshot p) tick).time = p.time ∧
       (c.update (.Snapshot p) tick).depth = c.depth.replace_all p tick) ∧
      ((c.update (.Diff p) tick).last_update_id = p.last_update_id ∧
       (c.update (.Diff p) tick).time = p.time ∧
       (c.update (.Diff p) tick).depth = c.depth.update p tick) :=
  fun _ _ _ => ⟨⟨rfl, rfl, rfl⟩, ⟨rfl, rfl, rfl⟩⟩

theorem lookupPL_collectLevels_mem (p tick : ℚ) (orders : List DeOrder)
    (hl : lookupPL p (Depth.collectLevels orders tick) ≠ none) :
    p ∈ orders.map
      (fun o => round_to_min_tick (Price.from_f32 o.price) tick) := by
  suffices h : ∀ acc : PriceMap,
      lookupPL p (orders.foldl
        (fun pm o =>
          insertPL (round_to_min_tick (Price.from_f32 o.price) tick)
            o.qty pm) acc) ≠ none →
      p ∈ orders.map
        (fun o => round_to_min_tick (Price.from_f32 o.price) tick) ∨
        lookupPL p acc ≠ none by
    rcases h [] hl with h1 | h1
    · exact h1
    · exact absurd rfl h1
  clear hl
  induction orders with
  | nil => intro acc hl; exact Or.inr hl
  | cons o os ih =>
    intro acc hl
    rcases ih _ hl with h1 | h1
    · exact Or.inl (by rw [List.map_cons]; exact List.mem_cons_of_mem _ h1)
    · by_cases hp : round_to_min_tick (Price.from_f32 o.price) tick = p
      · refine Or.inl ?_
        rw [List.map_cons, ← hp]
        exact List.mem_cons_self _ _
      · rw [lookupPL_insertPL_ne p _ o.qty acc hp] at h1
        exact Or.inr h1

/-- Claim C7: applying a snapshot through `replace_all` yields, for every
starting state, exactly the maps obtained by starting from an empty `Depth`
and inserting each snapshot level once in order (with tick-size rounding);
no previously present level survives unless its tick-rounded price occurs
in the snapshot. -/
theorem c7_snapshot_replace_all_equiv :
    ∀ (c : LocalDepthCache) (s : DepthPayload) (tick : ℚ),
      (c.update (.Snapshot s) tick).depth.bids =
          snapshotLevelsSpec s.bids tick ∧
      (c.update (.Snapshot s) tick).depth.asks =
          snapshotLevelsSpec s.asks tick ∧
      (∀ p : Price,
        lookupPL p (c.update (.Snapshot s) tick).depth.bids ≠ none →
        p ∈ s.bids.map
          (fun o => round_to_min_tick (Price.from_f32 o.price) tick)) ∧
      (∀ p : Price,
        lookupPL p (c.update (.Snapshot s) tick).depth.asks ≠ none →
        p ∈ s.asks.map
          (fun o => round_to_min_tick (Price.from_f32 o.price) tick)) := by
  intro c s tick
  refine ⟨rfl, rfl, ?_, ?_⟩
  · intro p hp; exact lookupPL_collectLevels_mem p tick s.bids hp
  · intro p hp; exact lookupPL_collectLevels_mem p tick s.asks hp

/-- Witness for C7: a cache holding level 50 receives a snapshot whose only
bid level rounds to 2; level 2 is in the snapshot image (and level 50,
absent from the snapshot, did not survive, per the map equality parts). -/
theorem c7_snapshot_replace_all_equiv_witness :
    (2 : ℚ) ∈ ([⟨2, 5⟩] : List DeOrder).map
      (fun o => round_to_min_tick (Price.from_f32 o.price) 1) :=
  (c7_snapshot_replace_all_equiv ⟨9, 9, ⟨[(50, 1)], []⟩⟩ ⟨7, 3, [⟨2, 5⟩], []⟩
      1).2.2.1 2
    (by
      have hkey : round_to_min_tick (Price.from_f32 2) 1 = 2 := by
        norm_num [round_to_min_tick, Price.from_f32, round_eq]
      show lookupPL 2 (Depth.collectLevels [⟨2, 5⟩] 1) ≠ none
      simp [Depth.collectLevels, insertPL, removePL, hkey, lookupPL_cons])

theorem handle_depth_skip (s : StreamState) (d : PerpDepth) (tick : ℚ)
    (sq : Bool) (cs : Option ℚ) (r : ResyncOutcome)
    (h : d.final_id ≤ s.orderbook.last_update_id ∨
      s.orderbook.last_update_id = 0) :
    handle_depth s d tick sq cs r = (s, [], false) := by
  unfold handle_depth
  cases haf : s.already_fetching with
  | true => simp
  | false =>
    simp only [Bool.false_eq_true, if_false]
    rw [if_pos h]

theorem on_depth_skip (s : StreamState) (d : PerpDepth) (tick : ℚ)
    (sq : Bool) (cs : Option ℚ) (r : ResyncOutcome)
    (h : d.final_id ≤ s.orderbook.last_update_id ∨
      s.orderbook.last_update_id = 0) :
    on_depth s d tick sq cs r = (s, [], false) := by
  unfold on_depth
  cases hs : s.state with
  | Disconnected => rfl
  | Connected => exact handle_depth_skip s d tick sq cs r h

/-- Claim C3: a depth diff arriving with `final_id <= cache.last_update_id`
leaves the whole stream state unchanged — `last_update_id`, `time`, bid and
ask maps, the trade buffer (not flushed) and the connection state — no
event is emitted and no resync is started. -/
theorem c3_stale_diff_idempotent_rejection :
    ∀ (s : StreamState) (d : PerpDepth) (tick : ℚ) (sq : Bool)
      (cs : Option ℚ) (r : ResyncOutcome),
      d.final_id ≤ s.orderbook.last_update_id →
      on_depth s d tick sq cs r = (s, [], false) :=
  fun s d tick sq cs r h => on_depth_skip s d tick sq cs r (Or.inl h)

/-- Witness for C3: a duplicate diff (`final_id = 10 = last_update_id`)
leaves the connected state with its book and trade buffer intact. -/
theorem c3_stale_diff_idempotent_rejection_witness :
    on_depth ⟨.Connected, ⟨10, 0, ⟨[(1, 2)], []⟩⟩, [], false, 4⟩
        ⟨0, 9, 10, 9, [⟨1, 0⟩], []⟩ 1 false none (.fetchFailed "e") =
      (⟨.Connected, ⟨10, 0, ⟨[(1, 2)], []⟩⟩, [], false, 4⟩, [], false) :=
  c3_stale_diff_idempotent_rejection _ _ _ _ _ _ (by norm_num)

/-- Claim C2, counterexample. The claim says a diff whose window straddles
incorrectly (`last_update_id + 1 > final_id`) also triggers a resync, the
two conditions being independently sufficient. In the code the stale guard
`final_id <= last_update_id || last_update_id == 0` runs first and
discards exactly those diffs, so the straddle disjunct never fires: with
`last_update_id = 10`, `prev_id = 5` and a diff with `final_id = 8`
(straddle condition 11 > 8 holds), nothing happens and no resync starts. -/
theorem c2_counterexample :
    on_depth ⟨.Connected, ⟨10, 0, ⟨[], []⟩⟩, [], false, 5⟩
        ⟨0, 12, 8, 7, [], []⟩ 1 false none (.fetched ⟨0, 0, [], []⟩) =
      (⟨.Connected, ⟨10, 0, ⟨[], []⟩⟩, [], false, 5⟩, [], false) :=
  on_depth_skip _ _ _ _ _ _ (Or.inl (by norm_num))

/-- Claim C2, amended: in the Connected state, a diff that passes the stale
guard (`final_id > last_update_id` and `last_update_id ≠ 0`), is the first
after a snapshot (`prev_id == 0`) and has `first_id > last_update_id + 1`
triggers a resync; the straddle condition (`last_update_id + 1 > final_id`)
on the contrary never triggers a resync, because such a diff is already
discarded by the stale guard before the resync check is reached. -/
theorem c2_first_diff_resync_straddle_unreachable :
    (∀ (s : StreamState) (d : PerpDepth) (tick : ℚ) (sq : Bool)
       (cs : Option ℚ) (r : ResyncOutcome),
       s.state = .Connected → s.already_fetching = false →
       s.orderbook.last_update_id ≠ 0 →
       s.orderbook.last_update_id < d.final_id →
       s.prev_id = 0 → s.orderbook.last_update_id + 1 < d.first_id →
       (on_depth s d tick sq cs r).2.2 = true) ∧
    (∀ (s : StreamState) (d : PerpDepth) (tick : ℚ) (sq : Bool)
       (cs : Option ℚ) (r : ResyncOutcome),
       s.orderbook.last_update_id + 1 > d.final_id →
       on_depth s d tick sq cs r = (s, [], false)) := by
  constructor
  · intro s d tick sq cs r hst haf h0 hlt hp hf
    unfold on_depth
    rw [hst]
    unfold handle_depth
    rw [haf]
    simp only [Bool.false_eq_true, if_false]
    rw [if_neg (by omega)]
    have hrc : ((decide (s.prev_id = 0) &&
        decide (d.first_id > s.orderbook.last_update_id + 1)) ||
        decide (s.orderbook.last_update_id + 1 > d.final_id)) = true := by
      simp [hp]
      omega
    simp only [hrc]
    split
    · split
      · rfl
      · rfl
    · split
      · rfl
      · rfl
  · intro s d tick sq cs r h
    exact on_depth_skip s d tick sq cs r (Or.inl (by omega))

/-- Witness for the amended C2: a first-after-snapshot diff with a gap
above the snapshot id (`first_id = 13 > 10 + 1`) starts a resync; a
straddling diff (`final_id = 8 < 10 + 1`) is dropped with no effect. -/
theorem c2_first_diff_resync_straddle_unreachable_witness :
    (on_depth ⟨.Connected, ⟨10, 0, ⟨[], []⟩⟩, [], false, 0⟩
        ⟨0, 13, 14, 9, [], []⟩ 1 false none (.fetchFailed "e")).2.2 = true ∧
      on_depth ⟨.Connected, ⟨10, 0, ⟨[], []⟩⟩, [], false, 3⟩
          ⟨0, 6, 8, 5, [], []⟩ 1 false none (.fetchFailed "e") =
        (⟨.Connected, ⟨10, 0, ⟨[], []⟩⟩, [], false, 3⟩, [], false) :=
  ⟨c2_first_diff_resync_straddle_unreachable.1 _ _ _ _ _ _ rfl rfl
      (by norm_num) (by norm_num) rfl (by norm_num),
   c2_first_diff_resync_straddle_unreachable.2 _ _ _ _ _ _ (by norm_num)⟩

/-- Claim C4: a non-stale diff that is not the first after a snapshot
(`prev_id != 0`) and whose `prev_final_id` differs from the last applied
`final_id` drives the state to Disconnected with exactly one
`Disconnected` event; the diff is not applied (order book, trade buffer
and `prev_id` unchanged), no resync starts, and any subsequent diff is
ignored until a fresh connect cycle. -/
theorem c4_gap_disconnects :
    ∀ (s : StreamState) (d : PerpDepth) (tick : ℚ) (sq : Bool)
      (cs : Option ℚ) (r : ResyncOutcome),
      s.state = .Connected → s.already_fetching = false →
      s.orderbook.last_update_id ≠ 0 →
      s.orderbook.last_update_id < d.final_id →
      s.prev_id ≠ 0 → s.prev_id ≠ d.prev_final_id →
      on_depth s d tick sq cs r =
        ({ s with state := .Disconnected },
         [Event.Disconnected ("Out of sync. Expected update_id: "
            ++ toString d.prev_final_id ++ ", got: "
            ++ toString s.prev_id)],
         false) ∧
      (∀ (d' : PerpDepth) (tick' : ℚ) (sq' : Bool) (cs' : Option ℚ)
         (r' : ResyncOutcome),
         on_depth { s with state := .Disconnected } d' tick' sq' cs' r' =
           ({ s with state := .Disconnected }, [], false)) := by
  intro s d tick sq cs r hst haf h0 hlt hp hpf
  constructor
  · unfold on_depth
    rw [hst]
    unfold handle_depth
    rw [haf]
    simp only [Bool.false_eq_true, if_false]
    rw [if_neg (by omega)]
    have hrc : ((decide (s.prev_id = 0) &&
        decide (d.first_id > s.orderbook.last_update_id + 1)) ||
        decide (s.orderbook.last_update_id + 1 > d.final_id)) = false := by
      simp [hp]
      omega
    simp only [hrc, Bool.false_eq_true, if_false]
    rw [if_neg (not_or.mpr ⟨hp, hpf⟩)]
    simp [haf]
  · intro d' tick' sq' cs' r'
    rfl

/-- Witness for C4 at a connected state with `last_update_id = 10`,
`prev_id = 5` and a diff with `final_id = 15`, `prev_final_id = 9`. -/
theorem c4_gap_disconnects_witness :
    on_depth
        ⟨.Connected, ⟨10, 0, ⟨[(1, 2)], []⟩⟩, [⟨5, true, 1, 1⟩], false, 5⟩
        ⟨99, 12, 15, 9, [], []⟩ 1 false none (.fetchFailed "e") =
      (⟨.Disconnected, ⟨10, 0, ⟨[(1, 2)], []⟩⟩, [⟨5, true, 1, 1⟩], false, 5⟩,
       [Event.Disconnected ("Out of sync. Expected update_id: "
          ++ toString (9 : ℕ) ++ ", got: " ++ toString (5 : ℕ))],
       false) ∧
      (∀ (d' : PerpDepth) (tick' : ℚ) (sq' : Bool) (cs' : Option ℚ)
         (r' : ResyncOutcome),
         on_depth
             ⟨.Disconnected, ⟨10, 0, ⟨[(1, 2)], []⟩⟩, [⟨5, true, 1, 1⟩],
               false, 5⟩ d' tick' sq' cs' r' =
           (⟨.Disconnected, ⟨10, 0, ⟨[(1, 2)], []⟩⟩, [⟨5, true, 1, 1⟩],
             false, 5⟩, [], false)) :=
  c4_gap_disconnects _ _ 1 false none (.fetchFailed "e") rfl rfl
    (by norm_num) (by norm_num) (by norm_num) (by norm_num)

/-- Claim C9: `DeOrder` deserialization accepts each field as a JSON number
or as a string-encoded numeral, for both the two-element-array shape and
the object shape with keys "0" and "1", yielding the same (price, qty);
when the price or qty is missing or non-numeric it returns a
deserialization error instead of a value. -/
theorem c9_deorder_numeric_or_string :
    (∀ (vp vq : JVal) (p q : ℚ), numLike vp p → numLike vq q →
      ∀ rest : List JVal,
        DeOrder.deserialize (.arr (vp :: vq :: rest)) = .ok ⟨p, q⟩ ∧
        DeOrder.deserialize (.obj [("0", vp), ("1", vq)]) = .ok ⟨p, q⟩) ∧
    (∀ v : JVal, parse_f v = none → ∀ rest : List JVal,
      DeOrder.deserialize (.arr (v :: rest)) =
        .error "Order price not found or invalid") ∧
    (∀ (vp : JVal) (p : ℚ) (v : JVal),
      parse_f vp = some p → parse_f v = none →
      DeOrder.deserialize (.arr [vp, v]) =
        .error "Order qty not found or invalid") ∧
    (DeOrder.deserialize (.arr []) =
      .error "Order price not found or invalid") ∧
    (∀ (vp : JVal) (p : ℚ), parse_f vp = some p →
      DeOrder.deserialize (.arr [vp]) =
        .error "Order qty not found or invalid") ∧
    (∀ entries : List (String × JVal), objGet entries "0" = none →
      DeOrder.deserialize (.obj entries) =
        .error "Order price not found or invalid") ∧
    (∀ (entries : List (String × JVal)) (vp : JVal) (p : ℚ),
      objGet entries "0" = some vp → parse_f vp = some p →
      objGet entries "1" = none →
      DeOrder.deserialize (.obj entries) =
        .error "Order qty not found or invalid") ∧
    (DeOrder.deserialize .null =
      .error "Order price not found or invalid") := by
  refine ⟨?_, ?_, ?_, rfl, ?_, ?_, ?_, rfl⟩
  · intro vp vq p q hp hq rest
    rcases hp with rfl | rfl <;> rcases hq with rfl | rfl <;> exact ⟨rfl, rfl⟩
  · intro v hv rest
    simp [DeOrder.deserialize, hv]
  · intro vp p v hvp hv
    simp [DeOrder.deserialize, hvp, hv]
  · intro vp p hvp
    simp [DeOrder.deserialize, hvp]
  · intro entries h
    simp [DeOrder.deserialize, h]
  · intro entries vp p h0 hvp h1
    simp [DeOrder.deserialize, h0, hvp, h1]

/-- Witness for C9: number-encoded price 3 and string-encoded qty 4 parse
identically in both shapes; a lone non-numeric string is an error. -/
theorem c9_deorder_numeric_or_string_witness :
    (DeOrder.deserialize (.arr [.num 3, .str (some 4)]) = .ok ⟨3, 4⟩ ∧
      DeOrder.deserialize (.obj [("0", .num 3), ("1", .str (some 4))]) =
        .ok ⟨3, 4⟩) ∧
      DeOrder.deserialize (.arr [.str none]) =
        .error "Order price not found or invalid" :=
  ⟨c9_deorder_numeric_or_string.1 (.num 3) (.str (some 4)) 3 4
      (Or.inl rfl) (Or.inr rfl) [],
   c9_deorder_numeric_or_string.2.1 (.str none) rfl []⟩
